import Mathlib

/-!
Verification of the natural-language specification of
`galpy/potential/DoubleExponentialDiskPotential.py` against a shallow
embedding of its code.

Modelling conventions.
* Python floats are modelled as real numbers; a floating-point value that is
  non-finite (the NaN produced when a quadrature node coincides with the
  kernel's removable singularity `x/R = beta`, a 0/0) is modelled as `none`
  in `Option ℝ`.  A kernel evaluation is `none` exactly when its denominator
  `beta^2 - (x/R)^2` vanishes (for the positive nodes and `R`, `beta` of the
  program the numerator vanishes there as well, so the float result is NaN).
* `numpy.nansum` is `nansum` below (a `none` term contributes zero);
  `numpy.sum` is `floatSum` (a `none` term makes the whole sum `none`).
* The transcendental tables built at construction (Bessel-function zeros,
  Gauss-Legendre nodes/weights) and the Bessel functions `scipy.special.jn`
  are external inputs of the program (scipy); they enter the embedding as
  parameters.  The asymptotic `KeplerPotential` fallback `self._kp` lives
  outside this file's source and is, per the spec, "treated purely as an
  external collaborator exposing potential/force/derivative evaluation at a
  point"; its six evaluation maps are likewise parameters.
-/

open Real Filter Topology

noncomputable section

namespace GalpyDoubleExpDisk

/-- Source transcription of `_de_psi`: `t*tanh(pi/2*sinh(t))`. -/
def de_psi (t : ℝ) : ℝ := t * Real.tanh (π / 2 * Real.sinh t)

/-- Source transcription of `_de_psiprime`:
`(sinh(pi*sinh t) + pi*t*cosh t)/(cosh(pi*sinh t)+1)`. -/
def de_psiprime (t : ℝ) : ℝ :=
  (Real.sinh (π * Real.sinh t) + π * t * Real.cosh t) / (Real.cosh (π * Real.sinh t) + 1)

/-- DE nodes (`self._de_j0_xs` / `self._de_j1_xs` in `__init__`):
`pi/h * psi(h * t)` mapped over the scaled Bessel zeros `t = jn_zeros/pi`. -/
def de_xs (h : ℝ) (tzeros : List ℝ) : List ℝ :=
  tzeros.map (fun t => π / h * de_psi (h * t))

/-- DE weights (`self._de_j0_weights` / `self._de_j1_weights` in `__init__`):
`2/(pi*t*J_{ord+1}(pi t)^2) * J_ord(pi/h*psi(h t)) * psiprime(h t)`.
`J` is the Bessel function `scipy.special.jn`, an external parameter. -/
def de_weights (h : ℝ) (ord : ℕ) (J : ℕ → ℝ → ℝ) (tzeros : List ℝ) : List ℝ :=
  tzeros.map (fun t =>
    2 / (π * t * (J (ord + 1) (π * t)) ^ 2) * J ord (π / h * de_psi (h * t)) *
      de_psiprime (h * t))

/-- `numpy.nansum`: a non-finite (`none`) term contributes zero. -/
def nansum (l : List (Option ℝ)) : ℝ := (l.map (fun o => o.getD 0)).sum

/-- `numpy.sum` on floats: a non-finite (`none`) term poisons the whole sum. -/
def floatSum : List (Option ℝ) → Option ℝ
  | [] => some 0
  | o :: l => o.bind (fun a => (floatSum l).map (fun b => a + b))

/-- Float subtraction of two possibly non-finite terms (`a - b` in numpy:
NaN if either operand is NaN). -/
def optSub : Option ℝ → Option ℝ → Option ℝ
  | some a, some b => some (a - b)
  | _, _ => none

/-! ### DE-branch kernels (the `fun` lambdas of the `self._de` branches) -/

/-- `_evaluate` DE kernel:
`(alpha^2+(x/R)^2)^-1.5*(beta*exp(-x/R*|z|)-x/R*exp(-beta*|z|))/(beta^2-(x/R)^2)`. -/
def potKer (α β R z x : ℝ) : Option ℝ :=
  if β ^ 2 - (x / R) ^ 2 = 0 then none
  else some ((α ^ 2 + (x / R) ^ 2) ^ (-(3 : ℝ) / 2) *
    (β * Real.exp (-(x / R) * |z|) - x / R * Real.exp (-β * |z|)) /
    (β ^ 2 - (x / R) ^ 2))

/-- `_Rforce` DE kernel (the potential kernel times `x`). -/
def rfKer (α β R z x : ℝ) : Option ℝ :=
  if β ^ 2 - (x / R) ^ 2 = 0 then none
  else some (x * (α ^ 2 + (x / R) ^ 2) ^ (-(3 : ℝ) / 2) *
    (β * Real.exp (-(x / R) * |z|) - x / R * Real.exp (-β * |z|)) /
    (β ^ 2 - (x / R) ^ 2))

/-- `_zforce` DE kernel:
`(alpha^2+(x/R)^2)^-1.5*x/R*(exp(-x/R*|z|)-exp(-beta*|z|))/(beta^2-(x/R)^2)`. -/
def zfKer (α β R z x : ℝ) : Option ℝ :=
  if β ^ 2 - (x / R) ^ 2 = 0 then none
  else some ((α ^ 2 + (x / R) ^ 2) ^ (-(3 : ℝ) / 2) * (x / R) *
    (Real.exp (-(x / R) * |z|) - Real.exp (-β * |z|)) /
    (β ^ 2 - (x / R) ^ 2))

/-- `_R2deriv` DE kernel (`x**2` times the potential kernel). -/
def r2Ker (α β R z x : ℝ) : Option ℝ :=
  if β ^ 2 - (x / R) ^ 2 = 0 then none
  else some (x ^ 2 * (α ^ 2 + (x / R) ^ 2) ^ (-(3 : ℝ) / 2) *
    (β * Real.exp (-(x / R) * |z|) - x / R * Real.exp (-β * |z|)) /
    (β ^ 2 - (x / R) ^ 2))

/-- `_z2deriv` DE kernel:
`(alpha^2+(x/R)^2)^-1.5*x/R*(x/R*exp(-x/R*|z|)-beta*exp(-beta*|z|))/(beta^2-(x/R)^2)`. -/
def z2Ker (α β R z x : ℝ) : Option ℝ :=
  if β ^ 2 - (x / R) ^ 2 = 0 then none
  else some ((α ^ 2 + (x / R) ^ 2) ^ (-(3 : ℝ) / 2) * (x / R) *
    (x / R * Real.exp (-(x / R) * |z|) - β * Real.exp (-β * |z|)) /
    (β ^ 2 - (x / R) ^ 2))

/-- `_Rzderiv` DE kernel:
`(alpha^2+(x/R)^2)^-1.5*(x/R)^2*(exp(-x/R*|z|)-exp(-beta*|z|))/(beta^2-(x/R)^2)`. -/
def rzKer (α β R z x : ℝ) : Option ℝ :=
  if β ^ 2 - (x / R) ^ 2 = 0 then none
  else some ((α ^ 2 + (x / R) ^ 2) ^ (-(3 : ℝ) / 2) * (x / R) ^ 2 *
    (Real.exp (-(x / R) * |z|) - Real.exp (-β * |z|)) /
    (β ^ 2 - (x / R) ^ 2))

/-- `fun(xs)*weights`: kernel evaluated at every node, elementwise times the
weight table (a NaN kernel value stays NaN after the multiplication). -/
def deTerms (ker : ℝ → Option ℝ) (xs ws : List ℝ) : List (Option ℝ) :=
  List.zipWith (fun x w => (ker x).map (fun v => v * w)) xs ws

/-! ### DE-branch evaluators (scalar query), transcribed from the
`if self._de:` branches -/

/-- `_evaluate`, DE branch, scalar query:
`-4*pi*alpha/R * nansum(fun(de_j0_xs)*de_j0_weights)`. -/
def potential_de (α β : ℝ) (xs ws : List ℝ) (R z : ℝ) : ℝ :=
  -4 * π * α / R * nansum (deTerms (potKer α β R z) xs ws)

/-- `_Rforce`, DE branch: `-4*pi*alpha/R^2 * nansum(fun(de_j1_xs)*de_j1_weights)`. -/
def rforce_de (α β : ℝ) (xs ws : List ℝ) (R z : ℝ) : ℝ :=
  -4 * π * α / R ^ 2 * nansum (deTerms (rfKer α β R z) xs ws)

/-- The `out` value of `_zforce`'s DE branch, before the sign rule. -/
def zforceOut (α β : ℝ) (xs ws : List ℝ) (R z : ℝ) : ℝ :=
  -4 * π * α * β / R * nansum (deTerms (zfKer α β R z) xs ws)

/-- `_zforce`, DE branch: `out` if `z > 0`, else `-out`. -/
def zforce_de (α β : ℝ) (xs ws : List ℝ) (R z : ℝ) : ℝ :=
  if 0 < z then zforceOut α β xs ws R z else -zforceOut α β xs ws R z

/-- Order-1 term list of `_R2deriv`'s DE branch: `fun(de_j1_xs)/de_j1_xs*de_j1_weights`. -/
def r2TermsOrd1 (α β R z : ℝ) (xs1 ws1 : List ℝ) : List (Option ℝ) :=
  List.zipWith (fun x w => (r2Ker α β R z x).map (fun v => v / x * w)) xs1 ws1

/-- `_R2deriv`, DE branch:
`4*pi*alpha/R^3 * nansum(fun(j0_xs)*j0_w - fun(j1_xs)/j1_xs*j1_w)`.
The elementwise difference is taken before the nansum, so a NaN in either
component zeroes the whole combined term. -/
def r2deriv_de (α β : ℝ) (xs0 ws0 xs1 ws1 : List ℝ) (R z : ℝ) : ℝ :=
  4 * π * α / R ^ 3 *
    nansum (List.zipWith optSub (deTerms (r2Ker α β R z) xs0 ws0)
      (r2TermsOrd1 α β R z xs1 ws1))

/-- `_z2deriv`, DE branch: `-4*pi*alpha*beta/R * nansum(fun(j0_xs)*j0_w)`. -/
def z2deriv_de (α β : ℝ) (xs ws : List ℝ) (R z : ℝ) : ℝ :=
  -4 * π * α * β / R * nansum (deTerms (z2Ker α β R z) xs ws)

/-- The `out` value of `_Rzderiv`'s DE branch, before the sign rule. -/
def rzderivOut (α β : ℝ) (xs ws : List ℝ) (R z : ℝ) : ℝ :=
  -4 * π * α * β / R * nansum (deTerms (rzKer α β R z) xs ws)

/-- `_Rzderiv`, DE branch: `out` if `z > 0`, else `-out`. -/
def rzderiv_de (α β : ℝ) (xs ws : List ℝ) (R z : ℝ) : ℝ :=
  if 0 < z then rzderivOut α β xs ws R z else -rzderivOut α β xs ws R z

/-! ### Legacy (Gauss-Bessel) strategy, transcribed from the `if True:`
branches reached when `self._de` is false -/

/-- Construction-time inputs of the legacy strategy.  `hr`, `hz`, `kmaxFac`
are constructor arguments; `glx`/`glw` are the Gauss-Legendre tables
(`numpy.polynomial.legendre.leggauss(glorder)`); `j0zeros`/`j1zeros`/`j2zeros`
are the zero tables built in `__init__` (leading sentinel `0` prepended to
`scipy.special.jn_zeros(n, nzeros)`); `besselJ` is `scipy.special.jn`; and
`kp...` are the six evaluation maps of the `KeplerPotential` fallback
`self._kp`, an external collaborator. -/
structure LegacyParams where
  hr : ℝ
  hz : ℝ
  kmaxFac : ℝ
  glx : List ℝ
  glw : List ℝ
  j0zeros : List ℝ
  j1zeros : List ℝ
  j2zeros : List ℝ
  besselJ : ℕ → ℝ → ℝ
  kpPot : ℝ → ℝ → ℝ
  kpRforce : ℝ → ℝ → ℝ
  kpZforce : ℝ → ℝ → ℝ
  kpR2deriv : ℝ → ℝ → ℝ
  kpZ2deriv : ℝ → ℝ → ℝ
  kpRzderiv : ℝ → ℝ → ℝ

/-- `self._alpha = 1/self._hr`. -/
def LegacyParams.alpha (P : LegacyParams) : ℝ := 1 / P.hr

/-- `self._beta = 1/self._hz`. -/
def LegacyParams.beta (P : LegacyParams) : ℝ := 1 / P.hz

/-- Successive differences of a zero table
(`zeros - numpy.roll(zeros, 1)` with entry 0 reset to `zeros[0]`). -/
def diffs (l : List ℝ) : List ℝ := List.zipWith (fun a b => a - b) l (0 :: l)

/-- Minimum of a list of reals (`numpy.min`; irrelevant default on `[]`). -/
def listMin : List ℝ → ℝ
  | [] => 0
  | [x] => x
  | x :: y :: l => min x (listMin (y :: l))

/-- `numpy.argmin`: index of the first occurrence of the minimum. -/
def idxmin : List ℝ → ℕ
  | [] => 0
  | [_] => 0
  | x :: y :: l => if x ≤ listMin (y :: l) then 0 else 1 + idxmin (y :: l)

/-- `numpy.argmin((zeros - target)**2.)`, the cutoff index of the zero table. -/
def maxZeroIndx (zeros : List ℝ) (target : ℝ) : ℕ :=
  idxmin (zeros.map (fun x => (x - target) ^ 2))

/-- The flattened Gauss-Legendre abscissae
`[0.5*(glx+1)*dzeros[ii+1] + zeros[ii] for ii in range(m)]`. -/
def gaussKs (glx zeros dzeros : List ℝ) (m : ℕ) : List ℝ :=
  ((List.range m).map (fun ii =>
    glx.map (fun g => 0.5 * (g + 1) * dzeros.getD (ii + 1) 0 + zeros.getD ii 0))).flatten

/-- The flattened Gauss-Legendre weights `[glw*dzeros[ii+1] for ii in range(m)]`. -/
def gaussWts (glw dzeros : List ℝ) (m : ℕ) : List ℝ :=
  ((List.range m).map (fun ii => glw.map (fun w => w * dzeros.getD (ii + 1) 0))).flatten

/-- `weights*evalInt` of a legacy quadrature, elementwise. -/
def legacyTerms (ker : ℝ → Option ℝ) (ks wts : List ℝ) : List (Option ℝ) :=
  List.zipWith (fun w k => (ker k).map (fun v => w * v)) wts ks

/-- `numpy.sum(weights*evalInt)` of a legacy quadrature (NaN propagates). -/
def legacySum (ker : ℝ → Option ℝ) (ks wts : List ℝ) : Option ℝ :=
  floatSum (legacyTerms ker ks wts)

/-! Legacy integrands (`evalInt`), one per quantity; `J` is `scipy.special.jn`. -/

/-- `_evaluate` legacy integrand:
`jn(0,ks*R)*(alpha^2+ks^2)^-1.5*(beta*exp(-ks*|z|)-ks*exp(-beta*|z|))/(beta^2-ks^2)`. -/
def legPotKer (J : ℕ → ℝ → ℝ) (α β R z k : ℝ) : Option ℝ :=
  if β ^ 2 - k ^ 2 = 0 then none
  else some (J 0 (k * R) * (α ^ 2 + k ^ 2) ^ (-(3 : ℝ) / 2) *
    (β * Real.exp (-k * |z|) - k * Real.exp (-β * |z|)) / (β ^ 2 - k ^ 2))

/-- `_Rforce` legacy integrand (`ks*jn(1,ks*R)*...`). -/
def legRfKer (J : ℕ → ℝ → ℝ) (α β R z k : ℝ) : Option ℝ :=
  if β ^ 2 - k ^ 2 = 0 then none
  else some (k * J 1 (k * R) * (α ^ 2 + k ^ 2) ^ (-(3 : ℝ) / 2) *
    (β * Real.exp (-k * |z|) - k * Real.exp (-β * |z|)) / (β ^ 2 - k ^ 2))

/-- `_zforce` legacy integrand
(`ks*jn(0,ks*R)*(alpha^2+ks^2)^-1.5*(exp(-ks*|z|)-exp(-beta*|z|))/(beta^2-ks^2)`). -/
def legZfKer (J : ℕ → ℝ → ℝ) (α β R z k : ℝ) : Option ℝ :=
  if β ^ 2 - k ^ 2 = 0 then none
  else some (k * J 0 (k * R) * (α ^ 2 + k ^ 2) ^ (-(3 : ℝ) / 2) *
    (Real.exp (-k * |z|) - Real.exp (-β * |z|)) / (β ^ 2 - k ^ 2))

/-- `_R2deriv` legacy order-0 integrand (`ks0^2*jn(0,ks0*R)*...`). -/
def legR2Ker0 (J : ℕ → ℝ → ℝ) (α β R z k : ℝ) : Option ℝ :=
  if β ^ 2 - k ^ 2 = 0 then none
  else some (k ^ 2 * J 0 (k * R) * (α ^ 2 + k ^ 2) ^ (-(3 : ℝ) / 2) *
    (β * Real.exp (-k * |z|) - k * Real.exp (-β * |z|)) / (β ^ 2 - k ^ 2))

/-- `_R2deriv` legacy order-2 integrand (`ks2^2*jn(2,ks2*R)*...`). -/
def legR2Ker2 (J : ℕ → ℝ → ℝ) (α β R z k : ℝ) : Option ℝ :=
  if β ^ 2 - k ^ 2 = 0 then none
  else some (k ^ 2 * J 2 (k * R) * (α ^ 2 + k ^ 2) ^ (-(3 : ℝ) / 2) *
    (β * Real.exp (-k * |z|) - k * Real.exp (-β * |z|)) / (β ^ 2 - k ^ 2))

/-- `_z2deriv` legacy integrand
(`ks*jn(0,ks*R)*(...)^-1.5*(ks*exp(-ks*|z|)-beta*exp(-beta*|z|))/(beta^2-ks^2)`). -/
def legZ2Ker (J : ℕ → ℝ → ℝ) (α β R z k : ℝ) : Option ℝ :=
  if β ^ 2 - k ^ 2 = 0 then none
  else some (k * J 0 (k * R) * (α ^ 2 + k ^ 2) ^ (-(3 : ℝ) / 2) *
    (k * Real.exp (-k * |z|) - β * Real.exp (-β * |z|)) / (β ^ 2 - k ^ 2))

/-- `_Rzderiv` legacy integrand (`ks^2*jn(1,ks*R)*(exp-exp)/(beta^2-ks^2)`). -/
def legRzKer (J : ℕ → ℝ → ℝ) (α β R z k : ℝ) : Option ℝ :=
  if β ^ 2 - k ^ 2 = 0 then none
  else some (k ^ 2 * J 1 (k * R) * (α ^ 2 + k ^ 2) ^ (-(3 : ℝ) / 2) *
    (Real.exp (-k * |z|) - Real.exp (-β * |z|)) / (β ^ 2 - k ^ 2))

/-- `R4max`: `R` with values below 1 replaced by 1. -/
def r4max (R : ℝ) : ℝ := if R < 1 then 1 else R

/-- `_evaluate`, legacy branch, scalar query.  The Kepler fallback is used
exactly when the mask `R <= 6.` is false. -/
def legacyPotential (P : LegacyParams) (R z : ℝ) : Option ℝ :=
  if R ≤ 6 then
    let m := maxZeroIndx P.j0zeros (P.kmaxFac * P.beta * r4max R)
    let ks := gaussKs P.glx P.j0zeros (diffs P.j0zeros) m
    let wts := gaussWts P.glw (diffs P.j0zeros) m
    (legacySum (legPotKer P.besselJ P.alpha P.beta R z) ks wts).map
      (fun s => -2 * π * P.alpha * s)
  else some (P.kpPot R z)

/-- `_Rforce`, legacy branch, scalar query.  Note `kmax` is reassigned to
`2.*kmaxFac*beta`; `hasattr(self,'_kp')` always holds after `__init__`. -/
def legacyRforce (P : LegacyParams) (R z : ℝ) : Option ℝ :=
  if 16 * P.hr < R ∨ 6 < R then some (P.kpRforce R z)
  else
    let m := maxZeroIndx P.j1zeros (2 * P.kmaxFac * P.beta * r4max R)
    let ks := gaussKs P.glx P.j1zeros (diffs P.j1zeros) m
    let wts := gaussWts P.glw (diffs P.j1zeros) m
    (legacySum (legRfKer P.besselJ P.alpha P.beta R z) ks wts).map
      (fun s => -2 * π * P.alpha * s)

/-- `_zforce`, legacy branch, scalar query (sign flipped when `z <= 0`). -/
def legacyZforce (P : LegacyParams) (R z : ℝ) : Option ℝ :=
  if 16 * P.hr < R ∨ 6 < R then some (P.kpZforce R z)
  else
    let m := maxZeroIndx P.j0zeros (P.kmaxFac * P.beta * r4max R)
    let ks := gaussKs P.glx P.j0zeros (diffs P.j0zeros) m
    let wts := gaussWts P.glw (diffs P.j0zeros) m
    let s := legacySum (legZfKer P.besselJ P.alpha P.beta R z) ks wts
    if 0 < z then s.map (fun v => -2 * π * P.alpha * P.beta * v)
    else s.map (fun v => 2 * π * P.alpha * P.beta * v)

/-- `_R2deriv`, legacy branch, scalar query
(`pi*alpha*(sum(weights0*evalInt0) - sum(weights2*evalInt2))`). -/
def legacyR2deriv (P : LegacyParams) (R z : ℝ) : Option ℝ :=
  if 16 * P.hr < R ∨ 6 < R then some (P.kpR2deriv R z)
  else
    let m0 := maxZeroIndx P.j0zeros (2 * P.kmaxFac * P.beta * r4max R)
    let m2 := maxZeroIndx P.j2zeros (2 * P.kmaxFac * P.beta * r4max R)
    let s0 := legacySum (legR2Ker0 P.besselJ P.alpha P.beta R z)
      (gaussKs P.glx P.j0zeros (diffs P.j0zeros) m0)
      (gaussWts P.glw (diffs P.j0zeros) m0)
    let s2 := legacySum (legR2Ker2 P.besselJ P.alpha P.beta R z)
      (gaussKs P.glx P.j2zeros (diffs P.j2zeros) m2)
      (gaussWts P.glw (diffs P.j2zeros) m2)
    (optSub s0 s2).map (fun v => π * P.alpha * v)

/-- `_z2deriv`, legacy branch, scalar query. -/
def legacyZ2deriv (P : LegacyParams) (R z : ℝ) : Option ℝ :=
  if 16 * P.hr < R ∨ 6 < R then some (P.kpZ2deriv R z)
  else
    let m := maxZeroIndx P.j0zeros (P.kmaxFac * P.beta * r4max R)
    let ks := gaussKs P.glx P.j0zeros (diffs P.j0zeros) m
    let wts := gaussWts P.glw (diffs P.j0zeros) m
    (legacySum (legZ2Ker P.besselJ P.alpha P.beta R z) ks wts).map
      (fun v => -2 * π * P.alpha * P.beta * v)

/-- `_Rzderiv`, legacy branch, scalar query.  The fallback condition is only
`R > 6.` here, and the sign rule tests `z >= 0.`. -/
def legacyRzderiv (P : LegacyParams) (R z : ℝ) : Option ℝ :=
  if 6 < R then some (P.kpRzderiv R z)
  else
    let m := maxZeroIndx P.j1zeros (2 * P.kmaxFac * P.beta * r4max R)
    let ks := gaussKs P.glx P.j1zeros (diffs P.j1zeros) m
    let wts := gaussWts P.glw (diffs P.j1zeros) m
    let s := legacySum (legRzKer P.besselJ P.alpha P.beta R z) ks wts
    if 0 ≤ z then s.map (fun v => -2 * π * P.alpha * P.beta * v)
    else s.map (fun v => 2 * π * P.alpha * P.beta * v)

/-! ### Scalar/array input dispatch (public shape contract)

A coordinate argument is a Python float or a 1-d numpy array; a result is a
float (possibly NaN, hence `Option ℝ`) or an array of floats.  `none` as the
overall result models a raised exception (numpy broadcast `ValueError` or the
ambiguous-truth error of `if z > 0:` on an array). -/

/-- A scalar-or-array coordinate input. -/
inductive CoordIn where
  | scalar : ℝ → CoordIn
  | array : List ℝ → CoordIn

/-- A scalar-or-array evaluation result (entries possibly NaN). -/
inductive CoordOut where
  | scalar : Option ℝ → CoordOut
  | array : List (Option ℝ) → CoordOut

/-- `_evaluate` with its input normalisation (`isinstance` branch at the top):
a scalar is wrapped into a length-1 array and unwrapped at the end; an array
is flattened, evaluated elementwise (the DE branch via the `R[:,newaxis]`
broadcast, the legacy branch via the per-element loop), and reshaped.  Both
strategies accept both input kinds, so the result shape always mirrors the
input. `z` is taken scalar (an array `z` is broadcast elementwise the same
way). -/
def potentialCall (de : Bool) (α β : ℝ) (xs ws : List ℝ) (P : LegacyParams)
    (Rin : CoordIn) (z : ℝ) : Option CoordOut :=
  match Rin with
  | .scalar r =>
    if de then some (.scalar (some (potential_de α β xs ws r z)))
    else some (.scalar (legacyPotential P r z))
  | .array rs =>
    if de then some (.array (rs.map (fun r => some (potential_de α β xs ws r z))))
    else some (.array (rs.map (fun r => legacyPotential P r z)))

/-- The order-0 nansum of `_zforce`'s DE branch when `R` is an array of the
same length as the node table: numpy divides `x/R` elementwise and the
`nansum` (no axis) still reduces to a single float. -/
def zforceMixedSum (α β : ℝ) (xs ws rs : List ℝ) (z : ℝ) : ℝ :=
  nansum (List.zipWith3 (fun x w r => (zfKer α β r z x).map (fun v => v * w)) xs ws rs)

/-- The order-0 nansum of `_zforce`'s DE branch when the node table has
length 1: numpy broadcasts the shape-`(1,)` node (and weight) table against
the array `R`, and the `nansum` (no axis) reduces to a single float. -/
def zforceBcastSum (α β x0 w0 : ℝ) (rs : List ℝ) (z : ℝ) : ℝ :=
  nansum (rs.map (fun r => (zfKer α β r z x0).map (fun v => v * w0)))

/-- `_zforce` with scalar-or-array `R` (scalar `z`).  The legacy branch
explicitly loops over array input; the DE branch has no array handling, so an
array `R` hits the raw numpy broadcast `x/R` of the shape-`(len xs,)` node
table against the shape-`(len rs,)` input.  Per numpy's broadcasting rules
this succeeds when either side has length 1 or the lengths agree — the
`nansum` then collapses to one float and the `.../R` prefactor stretches the
result back to the input's length — and raises (`none`) otherwise. -/
def zforceCall (de : Bool) (α β : ℝ) (xs ws : List ℝ) (P : LegacyParams)
    (Rin : CoordIn) (z : ℝ) : Option CoordOut :=
  match Rin with
  | .scalar r =>
    if de then some (.scalar (some (zforce_de α β xs ws r z)))
    else some (.scalar (legacyZforce P r z))
  | .array rs =>
    if de then
      if rs.length = 1 then some (.array [some (zforce_de α β xs ws rs.headI z)])
      else if xs.length = 1 then
        let s := zforceBcastSum α β xs.headI ws.headI rs z
        let out := rs.map (fun r => -4 * π * α * β / r * s)
        some (.array ((if 0 < z then out else out.map (fun v => -v)).map some))
      else if rs.length = xs.length then
        let s := zforceMixedSum α β xs ws rs z
        let out := rs.map (fun r => -4 * π * α * β / r * s)
        some (.array ((if 0 < z then out else out.map (fun v => -v)).map some))
      else none
    else some (.array (rs.map (fun r => legacyZforce P r z)))

/-- The length of an array result (`none` for a scalar result). -/
def outLen : CoordOut → Option ℕ
  | .scalar _ => none
  | .array l => some l.length

/-! ### Closed-form density and surface density -/

/-- `_dens`: `exp(-alpha*R - beta*|z|)`. -/
def dens (α β R z : ℝ) : ℝ := Real.exp (-α * R - β * |z|)

/-- `_surfdens`: `2*exp(-alpha*R)/beta*(1 - exp(-beta*|z|))`. -/
def surfdens (α β R z : ℝ) : ℝ :=
  2 * Real.exp (-α * R) / β * (1 - Real.exp (-β * |z|))

/-! ### Definitions following claim wording (for refinement checks) -/

/-- Claim C1's kernel, written from the claim's words:
`(alpha^2+(x_k/R)^2)^(-3/2) * (beta*exp(-(x_k/R)*|z|) - (x_k/R)*exp(-beta*|z|))
/ (beta^2-(x_k/R)^2)`, non-finite at the removable singularity. -/
def potKerClaim (α β R z x : ℝ) : Option ℝ :=
  if β ^ 2 - (x / R) ^ 2 = 0 then none
  else some ((α ^ 2 + (x / R) ^ 2) ^ (-(3 : ℝ) / 2) *
    (β * Real.exp (-(x / R) * |z|) - x / R * Real.exp (-β * |z|)) /
    (β ^ 2 - (x / R) ^ 2))

/-- Claim C1's value: the prefactor `-4*pi*alpha/R` times the sum over the
order-0 DE nodes of `weight_k` times the kernel, non-finite terms skipped. -/
def potentialClaimC1 (α β : ℝ) (xs ws : List ℝ) (R z : ℝ) : ℝ :=
  -4 * π * α / R *
    nansum (List.zipWith (fun x w => (potKerClaim α β R z x).map (fun v => w * v)) xs ws)

/-- Claim C8's value: `+4*pi*alpha/R^3` times the difference between the
order-0 weighted kernel sum and the order-1 weighted kernel sum with each
order-1 term divided by its node. -/
def r2derivClaimC8 (α β : ℝ) (xs0 ws0 xs1 ws1 : List ℝ) (R z : ℝ) : ℝ :=
  4 * π * α / R ^ 3 *
    (nansum (deTerms (r2Ker α β R z) xs0 ws0) - nansum (r2TermsOrd1 α β R z xs1 ws1))

/-! ### Helper lemmas -/

lemma map_mul_right_comm (o : Option ℝ) (w : ℝ) :
    o.map (fun v => v * w) = o.map (fun v => w * v) := by
  cases o <;> simp [mul_comm]

lemma deTerms_eq_weight_mul (k : ℝ → Option ℝ) (xs ws : List ℝ) :
    deTerms k xs ws = List.zipWith (fun x w => (k x).map (fun v => w * v)) xs ws := by
  induction xs generalizing ws with
  | nil => simp [deTerms]
  | cons x xs ih =>
    cases ws with
    | nil => simp [deTerms]
    | cons w ws =>
      simp [deTerms, map_mul_right_comm, ih ws]

lemma nansum_nil : nansum [] = 0 := rfl

lemma nansum_cons (o : Option ℝ) (l : List (Option ℝ)) :
    nansum (o :: l) = o.getD 0 + nansum l := by
  simp [nansum]

lemma nansum_eq_sum_filterMap (l : List (Option ℝ)) :
    nansum l = (l.filterMap id).sum := by
  induction l with
  | nil => simp [nansum]
  | cons o l ih =>
    cases o with
    | none => simpa [nansum_cons] using ih
    | some a => simp [nansum_cons, ih]

lemma nansum_deTerms_zero {k : ℝ → Option ℝ} (hk : ∀ x, (k x).getD 0 = 0)
    (xs ws : List ℝ) : nansum (deTerms k xs ws) = 0 := by
  induction xs generalizing ws with
  | nil => simp [deTerms, nansum]
  | cons x xs ih =>
    cases ws with
    | nil => simp [deTerms, nansum]
    | cons w ws =>
      have hterm : ((k x).map (fun v => v * w)).getD 0 = 0 := by
        rcases h : k x with _ | v
        · simp
        · have := hk x
          rw [h] at this
          simp at this
          simp [this]
      have : deTerms k (x :: xs) (w :: ws) =
          (k x).map (fun v => v * w) :: deTerms k xs ws := by
        simp [deTerms]
      rw [this, nansum_cons, hterm, ih, add_zero]

lemma floatSum_eq_none_of_mem {l : List (Option ℝ)} (h : none ∈ l) :
    floatSum l = none := by
  induction l with
  | nil => simp at h
  | cons o l ih =>
    rcases List.mem_cons.mp h with h1 | h2
    · subst h1
      simp [floatSum]
    · rcases o with _ | a <;> simp [floatSum, ih h2]

lemma deTerms_congr {k k' : ℝ → Option ℝ} (h : ∀ x, k x = k' x) :
    ∀ xs ws : List ℝ, deTerms k xs ws = deTerms k' xs ws := by
  intro xs ws
  unfold deTerms
  induction xs generalizing ws with
  | nil => simp
  | cons x xs ih =>
    cases ws with
    | nil => simp
    | cons w ws => simp [h x, ih ws]

lemma zfKer_getD_at_zero (α β R x : ℝ) : (zfKer α β R 0 x).getD 0 = 0 := by
  unfold zfKer
  split <;> simp

lemma rzKer_getD_at_zero (α β R x : ℝ) : (rzKer α β R 0 x).getD 0 = 0 := by
  unfold rzKer
  split <;> simp

lemma zforceOut_at_zero (α β R : ℝ) (xs ws : List ℝ) :
    zforceOut α β xs ws R 0 = 0 := by
  unfold zforceOut
  rw [nansum_deTerms_zero (zfKer_getD_at_zero α β R) xs ws, mul_zero]

lemma rzderivOut_at_zero (α β R : ℝ) (xs ws : List ℝ) :
    rzderivOut α β xs ws R 0 = 0 := by
  unfold rzderivOut
  rw [nansum_deTerms_zero (rzKer_getD_at_zero α β R) xs ws, mul_zero]

lemma potKer_even (α β R z x : ℝ) : potKer α β R (-z) x = potKer α β R z x := by
  simp [potKer, abs_neg]

lemma zfKer_even (α β R z x : ℝ) : zfKer α β R (-z) x = zfKer α β R z x := by
  simp [zfKer, abs_neg]

lemma z2Ker_even (α β R z x : ℝ) : z2Ker α β R (-z) x = z2Ker α β R z x := by
  simp [z2Ker, abs_neg]

lemma rzKer_even (α β R z x : ℝ) : rzKer α β R (-z) x = rzKer α β R z x := by
  simp [rzKer, abs_neg]

lemma zforceOut_even (α β R z : ℝ) (xs ws : List ℝ) :
    zforceOut α β xs ws R (-z) = zforceOut α β xs ws R z := by
  unfold zforceOut
  rw [deTerms_congr (fun x => zfKer_even α β R z x)]

lemma rzderivOut_even (α β R z : ℝ) (xs ws : List ℝ) :
    rzderivOut α β xs ws R (-z) = rzderivOut α β xs ws R z := by
  unfold rzderivOut
  rw [deTerms_congr (fun x => rzKer_even α β R z x)]

/-! ### Claim C1 -/

/-- Claim C1: for every scalar `R>0` and `z`, with the DE strategy active, the
potential equals `-4*pi*alpha/R` times the sum over the order-0 DE nodes of
`weight_k` times the kernel
`(alpha^2+(x_k/R)^2)^(-3/2)*(beta*exp(-(x_k/R)*|z|)-(x_k/R)*exp(-beta*|z|))/(beta^2-(x_k/R)^2)`,
non-finite terms skipped. -/
theorem c1_potential_de_formula (α β R z : ℝ) (xs ws : List ℝ) (hR : 0 < R) :
    potential_de α β xs ws R z = potentialClaimC1 α β xs ws R z := by
  unfold potential_de potentialClaimC1
  rw [deTerms_eq_weight_mul]
  rfl

/-- Witness for C1 at `alpha=1`, `beta=2`, nodes `[1]`, weights `[1]`,
`R=1`, `z=0`. -/
theorem c1_witness :
    0 < (1 : ℝ) ∧
      potential_de 1 2 [1] [1] 1 0 = potentialClaimC1 1 2 [1] [1] 1 0 :=
  ⟨one_pos, c1_potential_de_formula 1 2 1 0 [1] [1] one_pos⟩

/-! ### Claim C10 -/

/-- Claim C10: for every finite `R>0`, with the DE strategy active,
`verticalForce(R,0)` and `secondDerivRZ(R,0)` are exactly zero: at `z=0`
every per-node kernel term contains the factor `exp(0)-exp(0)=0`, so the
weighted sum is identically zero before the sign rule is applied. -/
theorem c10_midplane_zero (α β R : ℝ) (xs ws : List ℝ) (hR : 0 < R) :
    zforce_de α β xs ws R 0 = 0 ∧ rzderiv_de α β xs ws R 0 = 0 := by
  constructor
  · unfold zforce_de
    rw [if_neg (lt_irrefl 0), zforceOut_at_zero, neg_zero]
  · unfold rzderiv_de
    rw [if_neg (lt_irrefl 0), rzderivOut_at_zero, neg_zero]

/-- Witness for C10 at `alpha=1`, `beta=2`, nodes `[1]`, weights `[1]`, `R=1`. -/
theorem c10_witness :
    0 < (1 : ℝ) ∧
      (zforce_de 1 2 [1] [1] 1 0 = 0 ∧ rzderiv_de 1 2 [1] [1] 1 0 = 0) :=
  ⟨one_pos, c10_midplane_zero 1 2 1 [1] [1] one_pos⟩

/-! ### Claim C4 -/

/-- Counterexample to C4: an evaluation with `R = -1 <= 0` does not fail with
a domain error; `_dens` simply evaluates its formula and returns the ordinary
positive value `exp(3)`. -/
theorem c4_counterexample :
    dens 3 16 (-1) 0 = Real.exp 3 ∧ 0 < dens 3 16 (-1) 0 := by
  constructor
  · unfold dens
    norm_num
  · exact Real.exp_pos _

/-- C4 amended: no evaluation call validates `R`.  A call with `R <= 0`
returns a value computed by the unconditional arithmetic of the method
(`_dens` returns the positive number `exp(-alpha*R-beta*|z|)`, the DE
potential returns its weighted quadrature sum); no state is touched since
evaluation only reads the construction-time tables. -/
theorem c4_amended (α β R z : ℝ) (xs ws : List ℝ) (hR : R ≤ 0) :
    dens α β R z = Real.exp (-α * R - β * |z|) ∧
    0 < dens α β R z ∧
    potential_de α β xs ws R z =
      -4 * π * α / R * nansum (deTerms (potKer α β R z) xs ws) :=
  ⟨rfl, Real.exp_pos _, rfl⟩

/-- Witness for C4 at `alpha=3`, `beta=16`, `R=-1`, `z=0`. -/
theorem c4_witness :
    (-1 : ℝ) ≤ 0 ∧
      (dens 3 16 (-1) 0 = Real.exp (-3 * (-1) - 16 * |(0 : ℝ)|) ∧
        0 < dens 3 16 (-1) 0 ∧
        potential_de 3 16 [1] [1] (-1) 0 =
          -4 * π * 3 / (-1) * nansum (deTerms (potKer 3 16 (-1) 0) [1] [1])) :=
  ⟨neg_nonpos.mpr zero_le_one,
    c4_amended 3 16 (-1) 0 [1] [1] (neg_nonpos.mpr zero_le_one)⟩

/-! ### Claim C6 -/

lemma surfdens_tendsto_atTop (α β R : ℝ) (hβ : 0 < β) :
    Tendsto (fun z => surfdens α β R z) atTop (𝓝 (2 * Real.exp (-α * R) / β)) := by
  have habs : (fun z : ℝ => Real.exp (-β * |z|)) =ᶠ[atTop]
      fun z : ℝ => Real.exp (-β * z) := by
    filter_upwards [eventually_ge_atTop (0 : ℝ)] with z hz
    rw [abs_of_nonneg hz]
  have hlin : Tendsto (fun z : ℝ => -β * z) atTop atBot :=
    (tendsto_const_mul_atBot_of_neg (neg_neg_iff_pos.mpr hβ)).mpr tendsto_id
  have hexp : Tendsto (fun z : ℝ => Real.exp (-β * |z|)) atTop (𝓝 0) :=
    (Real.tendsto_exp_atBot.comp hlin).congr' habs.symm
  have h2 : Tendsto (fun z : ℝ => 2 * Real.exp (-α * R) / β * (1 - Real.exp (-β * |z|)))
      atTop (𝓝 (2 * Real.exp (-α * R) / β * (1 - 0))) :=
    tendsto_const_nhds.mul (tendsto_const_nhds.sub hexp)
  simpa [surfdens] using h2

lemma surfdens_tendsto_atBot (α β R : ℝ) (hβ : 0 < β) :
    Tendsto (fun z => surfdens α β R z) atBot (𝓝 (2 * Real.exp (-α * R) / β)) := by
  have habs : (fun z : ℝ => Real.exp (-β * |z|)) =ᶠ[atBot]
      fun z : ℝ => Real.exp (β * z) := by
    filter_upwards [eventually_le_atBot (0 : ℝ)] with z hz
    rw [abs_of_nonpos hz]
    ring_nf
  have hlin : Tendsto (fun z : ℝ => β * z) atBot atBot :=
    (tendsto_const_mul_atBot_of_pos hβ).mpr tendsto_id
  have hexp : Tendsto (fun z : ℝ => Real.exp (-β * |z|)) atBot (𝓝 0) :=
    (Real.tendsto_exp_atBot.comp hlin).congr' habs.symm
  have h2 : Tendsto (fun z : ℝ => 2 * Real.exp (-α * R) / β * (1 - Real.exp (-β * |z|)))
      atBot (𝓝 (2 * Real.exp (-α * R) / β * (1 - 0))) :=
    tendsto_const_nhds.mul (tendsto_const_nhds.sub hexp)
  simpa [surfdens] using h2

/-- Counterexample to C6: with `hr=1/3`, `hz=1/16` (so `alpha=3`, `beta=16`)
and `R=1`, the large-`|z|` limit of the surface density is *not* the claimed
`2*exp(-R/hr)/hz = 32*exp(-3)`; the code's limit is `2*exp(-3)/16`. -/
theorem c6_counterexample :
    ¬ Tendsto (fun z => surfdens 3 16 1 z) atTop (𝓝 (32 * Real.exp (-3))) := by
  intro hclaim
  have hcode : Tendsto (fun z => surfdens 3 16 1 z) atTop
      (𝓝 (2 * Real.exp (-3 * 1) / 16)) := surfdens_tendsto_atTop 3 16 1 (by norm_num)
  have heq := tendsto_nhds_unique hclaim hcode
  have hpos := Real.exp_pos (-3 : ℝ)
  rw [show (-3 : ℝ) * 1 = -3 by norm_num] at heq
  nlinarith [heq, hpos]

/-- C6 amended: for every `R`, `surfaceDensity(R,0) = 0`, and as `|z|` tends
to infinity `surfaceDensity(R,z)` tends to `2*hz*exp(-R/hr)` (that is
`2*exp(-alpha*R)/beta`), not `2*exp(-R/hr)/hz`. -/
theorem c6_amended (hr hz R : ℝ) (hhz : 0 < hz) :
    surfdens (1 / hr) (1 / hz) R 0 = 0 ∧
    Tendsto (fun z => surfdens (1 / hr) (1 / hz) R z) atTop
      (𝓝 (2 * hz * Real.exp (-R / hr))) ∧
    Tendsto (fun z => surfdens (1 / hr) (1 / hz) R z) atBot
      (𝓝 (2 * hz * Real.exp (-R / hr))) := by
  have hval : 2 * Real.exp (-(1 / hr) * R) / (1 / hz) = 2 * hz * Real.exp (-R / hr) := by
    rw [show -(1 / hr) * R = -R / hr by ring]
    field_simp
    ring
  refine ⟨?_, ?_, ?_⟩
  · simp [surfdens]
  · have h := surfdens_tendsto_atTop (1 / hr) (1 / hz) R (by positivity)
    rwa [hval] at h
  · have h := surfdens_tendsto_atBot (1 / hr) (1 / hz) R (by positivity)
    rwa [hval] at h

/-- Witness for C6 at `hr=1`, `hz=1`, `R=0`. -/
theorem c6_witness :
    0 < (1 : ℝ) ∧
      (surfdens (1 / 1) (1 / 1) 0 0 = 0 ∧
        Tendsto (fun z => surfdens (1 / 1) (1 / 1) 0 z) atTop
          (𝓝 (2 * 1 * Real.exp (-0 / 1))) ∧
        Tendsto (fun z => surfdens (1 / 1) (1 / 1) 0 z) atBot
          (𝓝 (2 * 1 * Real.exp (-0 / 1)))) :=
  ⟨one_pos, c6_amended 1 1 0 one_pos⟩

/-! ### Claim C7 -/

/-- Counterexample to C7: `verticalForce` is *not* an even function of `z`
(the claim lists it among the even quantities); at `alpha=1`, `beta=2`,
nodes `[1]`, weights `[1]`, `R=1` the DE vertical force at `z=-1` differs
from its value at `z=1`. -/
theorem c7_counterexample :
    zforce_de 1 2 [1] [1] 1 (-1) ≠ zforce_de 1 2 [1] [1] 1 1 := by
  have hd : (2 : ℝ) ^ 2 - ((1 : ℝ) / 1) ^ 2 ≠ 0 := by norm_num
  have hker : zfKer 1 2 1 1 1 =
      some (((1 : ℝ) ^ 2 + (1 / 1) ^ 2) ^ (-(3 : ℝ) / 2) * (1 / 1) *
        (Real.exp (-(1 / 1) * |(1 : ℝ)|) - Real.exp (-2 * |(1 : ℝ)|)) /
        (2 ^ 2 - (1 / 1) ^ 2)) := by
    unfold zfKer
    rw [if_neg hd]
  have hterm : deTerms (zfKer 1 2 1 1) [1] [1] =
      [(zfKer 1 2 1 1 1).map (fun v => v * 1)] := by
    simp [deTerms]
  have hs : 0 < nansum (deTerms (zfKer 1 2 1 1) [1] [1]) := by
    rw [hterm, hker, Option.map_some', nansum_cons, nansum_nil, Option.getD_some,
      add_zero, mul_one]
    have h1 : (0 : ℝ) < ((1 : ℝ) ^ 2 + (1 / 1) ^ 2) ^ (-(3 : ℝ) / 2) :=
      Real.rpow_pos_of_pos (by norm_num) _
    have h2 : (0 : ℝ) <
        Real.exp (-(1 / 1) * |(1 : ℝ)|) - Real.exp (-2 * |(1 : ℝ)|) := by
      have := Real.exp_lt_exp.mpr
        (show (-2 : ℝ) * |(1 : ℝ)| < -(1 / 1) * |(1 : ℝ)| by
          rw [abs_one]; norm_num)
      linarith
    have h3 : (0 : ℝ) < 2 ^ 2 - ((1 : ℝ) / 1) ^ 2 := by norm_num
    have hm : (0 : ℝ) < (1 : ℝ) / 1 := by norm_num
    exact div_pos (mul_pos (mul_pos h1 hm) h2) h3
  have hout : zforceOut 1 2 [1] [1] 1 1 < 0 := by
    unfold zforceOut
    have hrw : -4 * π * 1 * 2 / 1 * nansum (deTerms (zfKer 1 2 1 1) [1] [1]) =
        -(8 * π * nansum (deTerms (zfKer 1 2 1 1) [1] [1])) := by ring
    rw [hrw, neg_lt_zero]
    exact mul_pos (by positivity) hs
  have h1 : zforce_de 1 2 [1] [1] 1 1 < 0 := by
    unfold zforce_de
    rw [if_pos one_pos]
    exact hout
  have h2 : 0 < zforce_de 1 2 [1] [1] 1 (-1) := by
    unfold zforce_de
    rw [if_neg (by norm_num)]
    have heven := zforceOut_even 1 2 1 1 [1] [1]
    rw [heven]
    linarith
  intro heq
  rw [heq] at h2
  linarith

/-- C7 amended: under `z -> -z`, `potential`, `density`, `surfaceDensity`,
and `secondDerivZZ` are even, while `verticalForce` and `secondDerivRZ` are
odd (`verticalForce` is odd, not even as the claim also listed it). -/
theorem c7_parity (α β R z : ℝ) (xs ws : List ℝ) :
    potential_de α β xs ws R (-z) = potential_de α β xs ws R z ∧
    dens α β R (-z) = dens α β R z ∧
    surfdens α β R (-z) = surfdens α β R z ∧
    z2deriv_de α β xs ws R (-z) = z2deriv_de α β xs ws R z ∧
    zforce_de α β xs ws R (-z) = -zforce_de α β xs ws R z ∧
    rzderiv_de α β xs ws R (-z) = -rzderiv_de α β xs ws R z := by
  refine ⟨?_, ?_, ?_, ?_, ?_, ?_⟩
  · unfold potential_de
    rw [deTerms_congr (fun x => potKer_even α β R z x)]
  · simp [dens, abs_neg]
  · simp [surfdens, abs_neg]
  · unfold z2deriv_de
    rw [deTerms_congr (fun x => z2Ker_even α β R z x)]
  · unfold zforce_de
    rcases lt_trichotomy z 0 with hz | hz | hz
    · rw [if_pos (by linarith), if_neg (not_lt.mpr hz.le), zforceOut_even, neg_neg]
    · subst hz
      rw [neg_zero, if_neg (lt_irrefl 0), zforceOut_at_zero]
      norm_num
    · rw [if_neg (by simpa using hz.le), if_pos hz, zforceOut_even]
  · unfold rzderiv_de
    rcases lt_trichotomy z 0 with hz | hz | hz
    · rw [if_pos (by linarith), if_neg (not_lt.mpr hz.le), rzderivOut_even, neg_neg]
    · subst hz
      rw [neg_zero, if_neg (lt_irrefl 0), rzderivOut_at_zero]
      norm_num
    · rw [if_neg (by simpa using hz.le), if_pos hz, rzderivOut_even]

/-! ### Claim C3 -/

/-- Concrete legacy construction for the C3 counterexample: `hr=1`, `hz=1/2`
(`alpha=1`, `beta=2`), `kmaxFac=2`, order-1 Gauss-Legendre table, a zero
table `[0,4]` whose single quadrature abscissa `0.5*(0+1)*4+0 = 2` lands
exactly on the removable singularity `ks = beta`. -/
def Pc3 : LegacyParams where
  hr := 1
  hz := 1 / 2
  kmaxFac := 2
  glx := [0]
  glw := [2]
  j0zeros := [0, 4]
  j1zeros := [0, 4]
  j2zeros := [0, 4]
  besselJ := fun _ _ => 1
  kpPot := fun _ _ => 0
  kpRforce := fun _ _ => 0
  kpZforce := fun _ _ => 0
  kpR2deriv := fun _ _ => 0
  kpZ2deriv := fun _ _ => 0
  kpRzderiv := fun _ _ => 0

/-- Counterexample to C3: under the *legacy* strategy a non-finite kernel
term does not contribute zero — `numpy.sum` propagates it, and the whole
potential evaluation returns NaN (`none`) instead of the sum of the
remaining finite terms (which here would be `0`). -/
theorem c3_counterexample : legacyPotential Pc3 1 0 = none := by
  have hcond : ((1 : ℝ) / (1 / 2)) ^ 2 - (0.5 * (0 + 1) * 4 + 0 : ℝ) ^ 2 = 0 := by
    norm_num
  norm_num [legacyPotential, Pc3, LegacyParams.alpha, LegacyParams.beta, r4max,
    maxZeroIndx, idxmin, listMin, diffs, gaussKs, gaussWts, legacySum,
    legacyTerms, legPotKer, floatSum, List.range_succ, hcond]

/-- A kernel stand-in that is non-finite at every node. -/
def noneKer : ℝ → Option ℝ := fun x => none

/-- C3 amended: under the DE strategy a non-finite kernel term contributes
exactly zero — the DE sum equals the sum of the finite terms alone (shown
for the potential evaluator).  Under the legacy strategy this fails: the
plain `numpy.sum` propagates any non-finite term, making the whole weighted
sum non-finite. -/
theorem c3_amended (α β R z : ℝ) (xs ws : List ℝ) (ker : ℝ → Option ℝ)
    (ks wts : List ℝ) :
    potential_de α β xs ws R z =
      -4 * π * α / R * ((deTerms (potKer α β R z) xs ws).filterMap id).sum ∧
    (none ∈ legacyTerms ker ks wts → legacySum ker ks wts = none) := by
  constructor
  · unfold potential_de
    rw [nansum_eq_sum_filterMap]
  · intro hmem
    exact floatSum_eq_none_of_mem hmem

/-- Witness for C3 with a singular node present in the legacy term list. -/
theorem c3_witness :
    none ∈ legacyTerms noneKer [1] [1] ∧
      (potential_de 1 2 [1] [1] 1 0 =
        -4 * π * 1 / 1 * ((deTerms (potKer 1 2 1 0) [1] [1]).filterMap id).sum ∧
       legacySum noneKer [1] [1] = none) := by
  have hmem : none ∈ legacyTerms noneKer [1] [1] := by
    simp [legacyTerms, noneKer]
  exact ⟨hmem, (c3_amended 1 2 1 0 [1] [1] noneKer [1] [1]).1,
    (c3_amended 1 2 1 0 [1] [1] noneKer [1] [1]).2 hmem⟩

/-! ### Claim C5 -/

lemma tanh_pos_of_pos {x : ℝ} (hx : 0 < x) : 0 < Real.tanh x := by
  rw [Real.tanh_eq_sinh_div_cosh]
  exact div_pos (Real.sinh_pos_iff.mpr hx) (Real.cosh_pos x)

lemma tanh_lt_tanh_of_lt {a b : ℝ} (h : a < b) : Real.tanh a < Real.tanh b := by
  rw [Real.tanh_eq_sinh_div_cosh, Real.tanh_eq_sinh_div_cosh,
    div_lt_div_iff (Real.cosh_pos a) (Real.cosh_pos b)]
  have hs : 0 < Real.sinh (b - a) := Real.sinh_pos_iff.mpr (by linarith)
  rw [Real.sinh_sub] at hs
  nlinarith [hs]

lemma de_psi_lt {a b : ℝ} (ha : 0 < a) (hab : a < b) : de_psi a < de_psi b := by
  unfold de_psi
  have hb : 0 < b := ha.trans hab
  have hsa : 0 < π / 2 * Real.sinh a :=
    mul_pos (by positivity) (Real.sinh_pos_iff.mpr ha)
  have ht1 : 0 < Real.tanh (π / 2 * Real.sinh a) := tanh_pos_of_pos hsa
  have ht2 : Real.tanh (π / 2 * Real.sinh a) < Real.tanh (π / 2 * Real.sinh b) :=
    tanh_lt_tanh_of_lt
      (mul_lt_mul_of_pos_left (Real.sinh_lt_sinh.mpr hab) (by positivity))
  have ht2p : 0 < Real.tanh (π / 2 * Real.sinh b) := ht1.trans ht2
  calc a * Real.tanh (π / 2 * Real.sinh a)
      < a * Real.tanh (π / 2 * Real.sinh b) := by
        exact mul_lt_mul_of_pos_left ht2 ha
    _ < b * Real.tanh (π / 2 * Real.sinh b) := by
        exact mul_lt_mul_of_pos_right hab ht2p

lemma de_psiprime_pos {t : ℝ} (ht : 0 < t) : 0 < de_psiprime t := by
  unfold de_psiprime
  have h1 : 0 < Real.sinh (π * Real.sinh t) :=
    Real.sinh_pos_iff.mpr (mul_pos Real.pi_pos (Real.sinh_pos_iff.mpr ht))
  have h2 : 0 < π * t * Real.cosh t :=
    mul_pos (mul_pos Real.pi_pos ht) (Real.cosh_pos t)
  have h3 : 0 < Real.cosh (π * Real.sinh t) + 1 := by
    have := Real.cosh_pos (π * Real.sinh t)
    linarith
  exact div_pos (by linarith) h3

lemma pairwise_lt_map_of_mono {f : ℝ → ℝ} :
    ∀ l : List ℝ, (∀ t ∈ l, 0 < t) → l.Pairwise (· < ·) →
      (∀ a b : ℝ, 0 < a → a < b → f a < f b) → (l.map f).Pairwise (· < ·) := by
  intro l
  induction l with
  | nil => intro _ _ _; simp
  | cons x xs ih =>
    intro hpos hpw hf
    rw [List.map_cons, List.pairwise_cons]
    rw [List.pairwise_cons] at hpw
    refine ⟨?_, ih (fun t ht => hpos t (List.mem_cons_of_mem _ ht)) hpw.2 hf⟩
    intro b hb
    rcases List.mem_map.mp hb with ⟨t, ht, rfl⟩
    exact hf x t (hpos x (List.mem_cons_self _ _)) (hpw.1 t ht)

/-- The constant function `-1`, a stand-in for the Bessel-function parameter
of the table builder: `J_ord(x_k)` is negative whenever `x_k` lies between
an odd- and even-indexed zero of `J_ord` (e.g. `J_0(x) < 0` on
`(2.405..,5.520..)`, which the default tuning's node `x_30 ~ 4.37` hits). -/
def negJ : ℕ → ℝ → ℝ := fun n x => -1

/-- Counterexample to C5: the DE weight construction does *not* yield only
strictly positive weights — the weight carries the sign of `J_ord(x_k)`, so
instantiating the Bessel-function parameter with a function that is negative
at the node produces a negative weight. -/
theorem c5_counterexample : (de_weights 1 0 negJ [1]).headI < 0 := by
  unfold de_weights negJ
  simp only [List.map_cons, List.map_nil, List.headI]
  have hp : 0 < de_psiprime (1 * 1) := de_psiprime_pos (by norm_num)
  have h1 : (0 : ℝ) < 2 / π * de_psiprime (1 * 1) :=
    mul_pos (div_pos two_pos Real.pi_pos) hp
  have heq : 2 / (π * 1 * ((-1 : ℝ)) ^ 2) * (-1) * de_psiprime (1 * 1) =
      -(2 / π * de_psiprime (1 * 1)) := by
    norm_num
  rw [heq]
  linarith

/-- C5 amended: for strictly increasing, positive Bessel-zero inputs and
`h>0` the DE node sequence is strictly increasing, and every weight equals
a strictly positive coefficient (`2/(pi*t_k*J_{ord+1}(pi t_k)^2) *
psiprime(h t_k)`, finite since `J_{ord+1}(pi t_k) /= 0`) times
`J_ord(x_k)` — so the weights are finite but carry the sign of `J_ord(x_k)`
rather than being strictly positive. -/
theorem c5_tables (h : ℝ) (ord : ℕ) (J : ℕ → ℝ → ℝ) (tz : List ℝ)
    (hh : 0 < h) (hpos : ∀ t ∈ tz, 0 < t) (hinc : tz.Pairwise (· < ·))
    (hJ : ∀ t ∈ tz, J (ord + 1) (π * t) ≠ 0) :
    (de_xs h tz).Pairwise (· < ·) ∧
    ∀ w ∈ de_weights h ord J tz, ∃ t ∈ tz, ∃ c : ℝ, 0 < c ∧
      w = c * J ord (π / h * de_psi (h * t)) := by
  constructor
  · unfold de_xs
    apply pairwise_lt_map_of_mono tz hpos hinc
    intro a b ha hab
    have hpsi : de_psi (h * a) < de_psi (h * b) :=
      de_psi_lt (mul_pos hh ha) (mul_lt_mul_of_pos_left hab hh)
    exact mul_lt_mul_of_pos_left hpsi (by positivity)
  · intro w hw
    rcases List.mem_map.mp hw with ⟨t, ht, rfl⟩
    refine ⟨t, ht, 2 / (π * t * (J (ord + 1) (π * t)) ^ 2) * de_psiprime (h * t),
      ?_, ?_⟩
    · have hne := hJ t ht
      have hsq : 0 < (J (ord + 1) (π * t)) ^ 2 :=
        lt_of_le_of_ne (sq_nonneg _) (Ne.symm (pow_ne_zero 2 hne))
      have hden : 0 < π * t * (J (ord + 1) (π * t)) ^ 2 :=
        mul_pos (mul_pos Real.pi_pos (hpos t ht)) hsq
      exact mul_pos (div_pos two_pos hden) (de_psiprime_pos (mul_pos hh (hpos t ht)))
    · ring

/-- Witness for C5 with `h=1`, order 0, the constant-1 Bessel stand-in and
zero table `[1]`. -/
theorem c5_witness :
    0 < (1 : ℝ) ∧
      ((de_xs 1 [1]).Pairwise (· < ·) ∧
        ∀ w ∈ de_weights 1 0 (fun n x => 1) [1], ∃ t ∈ [(1 : ℝ)], ∃ c : ℝ,
          0 < c ∧ w = c * (fun (n : ℕ) (x : ℝ) => (1 : ℝ)) 0 (π / 1 * de_psi (1 * t))) :=
  ⟨one_pos,
    c5_tables 1 0 (fun n x => 1) [1] one_pos
      (by intro t ht; simp at ht; simp [ht])
      (by simp)
      (by intro t ht; norm_num)⟩

/-! ### Claim C8 -/

lemma nansum_optSub : ∀ A B : List (Option ℝ), A.length = B.length →
    (∀ o ∈ A, o.isSome = true) → (∀ o ∈ B, o.isSome = true) →
    nansum (List.zipWith optSub A B) = nansum A - nansum B := by
  intro A
  induction A with
  | nil =>
    intro B hlen _ _
    rw [List.length_nil] at hlen
    rw [List.length_eq_zero.mp hlen.symm]
    simp [nansum]
  | cons a A ih =>
    intro B hlen hA hB
    cases B with
    | nil => simp at hlen
    | cons b B =>
      rcases Option.isSome_iff_exists.mp (hA a (List.mem_cons_self a A)) with ⟨va, rfl⟩
      rcases Option.isSome_iff_exists.mp (hB b (List.mem_cons_self b B)) with ⟨vb, rfl⟩
      have hlen' : A.length = B.length := by simpa using hlen
      rw [List.zipWith_cons_cons, nansum_cons, nansum_cons, nansum_cons,
        ih B hlen' (fun o ho => hA o (List.mem_cons_of_mem _ ho))
          (fun o ho => hB o (List.mem_cons_of_mem _ ho))]
      simp [optSub]
      ring

/-- Counterexample to C8: when an order-0 node hits the removable
singularity (`x/R = beta`: here `x=2`, `R=1`, `beta=2`), the code's
`nansum` of the *elementwise* difference zeroes the whole combined term —
including its finite order-1 part — so the result (here `0`) differs from
the claimed difference of the two separately-summed series (here negative). -/
theorem c8_counterexample :
    r2deriv_de 1 2 [2] [1] [1] [1] 1 0 ≠ r2derivClaimC8 1 2 [2] [1] [1] [1] 1 0 := by
  have hnone : r2Ker 1 2 1 0 2 = none := by
    unfold r2Ker
    rw [if_pos (by norm_num)]
  have hd : (2 : ℝ) ^ 2 - ((1 : ℝ) / 1) ^ 2 ≠ 0 := by norm_num
  have hsome : r2Ker 1 2 1 0 1 = some ((2 : ℝ) ^ (-(3 : ℝ) / 2) / 3) := by
    unfold r2Ker
    rw [if_neg hd]
    norm_num
  have hA : deTerms (r2Ker 1 2 1 0) [2] [1] =
      [(r2Ker 1 2 1 0 2).map (fun v => v * 1)] := by
    simp [deTerms]
  have hB : r2TermsOrd1 1 2 1 0 [1] [1] =
      [(r2Ker 1 2 1 0 1).map (fun v => v / 1 * 1)] := by
    simp [r2TermsOrd1]
  have hc : (0 : ℝ) < (2 : ℝ) ^ (-(3 : ℝ) / 2) / 3 :=
    div_pos (Real.rpow_pos_of_pos two_pos _) (by norm_num)
  have hlhs : r2deriv_de 1 2 [2] [1] [1] [1] 1 0 = 0 := by
    unfold r2deriv_de
    rw [hA, hB, hnone]
    simp [optSub, nansum]
  have hrhs : r2derivClaimC8 1 2 [2] [1] [1] [1] 1 0 < 0 := by
    unfold r2derivClaimC8
    rw [hA, hB, hnone, hsome]
    simp [nansum]
    nlinarith [Real.pi_pos, hc]
  rw [hlhs]
  exact ne_of_gt hrhs

/-- C8 amended: the DE `R^2`-derivative is `+4*pi*alpha/R^3` times the nansum
of the per-node differences `(order-0 weighted term) - (order-1 term divided
by its node)`; whenever every per-node term of both series is finite (no
node on the removable singularity) this equals the claimed difference of the
order-0 weighted sum and the reweighted order-1 weighted sum. -/
theorem c8_r2deriv (α β R z : ℝ) (xs0 ws0 xs1 ws1 : List ℝ) (hR : 0 < R)
    (hlen : (deTerms (r2Ker α β R z) xs0 ws0).length =
      (r2TermsOrd1 α β R z xs1 ws1).length)
    (h0 : ∀ o ∈ deTerms (r2Ker α β R z) xs0 ws0, o.isSome = true)
    (h1 : ∀ o ∈ r2TermsOrd1 α β R z xs1 ws1, o.isSome = true) :
    r2deriv_de α β xs0 ws0 xs1 ws1 R z = r2derivClaimC8 α β xs0 ws0 xs1 ws1 R z := by
  unfold r2deriv_de r2derivClaimC8
  rw [nansum_optSub _ _ hlen h0 h1]

/-- Witness for C8 at a configuration with no singular node. -/
theorem c8_witness :
    0 < (1 : ℝ) ∧
    (deTerms (r2Ker 1 2 1 0) [1] [1]).length =
      (r2TermsOrd1 1 2 1 0 [1] [1]).length ∧
    (∀ o ∈ deTerms (r2Ker 1 2 1 0) [1] [1], o.isSome = true) ∧
    (∀ o ∈ r2TermsOrd1 1 2 1 0 [1] [1], o.isSome = true) ∧
    r2deriv_de 1 2 [1] [1] [1] [1] 1 0 = r2derivClaimC8 1 2 [1] [1] [1] [1] 1 0 := by
  have hlen : (deTerms (r2Ker 1 2 1 0) [1] [1]).length =
      (r2TermsOrd1 1 2 1 0 [1] [1]).length := by
    simp [deTerms, r2TermsOrd1]
  have h0 : ∀ o ∈ deTerms (r2Ker 1 2 1 0) [1] [1], o.isSome = true := by
    norm_num [deTerms, r2Ker]
  have h1 : ∀ o ∈ r2TermsOrd1 1 2 1 0 [1] [1], o.isSome = true := by
    norm_num [r2TermsOrd1, r2Ker]
  exact ⟨one_pos, hlen, h0, h1,
    c8_r2deriv 1 2 1 0 [1] [1] [1] [1] one_pos hlen h0 h1⟩

/-! ### Claim C2 -/

/-- Concrete legacy construction for the C2 counterexample: the default
shape parameters `hr=1/3`, `hz=1/16` (so `16*hr = 16/3 < 6`), a Bessel
stand-in that vanishes everywhere (so the quadrature sums to exactly `0`),
and a Kepler fallback returning `1` for every quantity. -/
def Pc2 : LegacyParams where
  hr := 1 / 3
  hz := 1 / 16
  kmaxFac := 2
  glx := [0]
  glw := [2]
  j0zeros := [0, 1]
  j1zeros := [0, 1]
  j2zeros := [0, 1]
  besselJ := fun _ _ => 0
  kpPot := fun _ _ => 1
  kpRforce := fun _ _ => 1
  kpZforce := fun _ _ => 1
  kpR2deriv := fun _ _ => 1
  kpZ2deriv := fun _ _ => 1
  kpRzderiv := fun _ _ => 1

/-- Counterexample to C2: with `hr=1/3`, the query `R=5.5` satisfies
`R > 16*hr` but not `R > 6`; the legacy *potential* does not delegate to the
Kepler fallback there — it still runs the quadrature (value `0` for the
vanishing Bessel stand-in), not the fallback's value (`1`). -/
theorem c2_counterexample :
    16 * Pc2.hr < (5.5 : ℝ) ∧
      legacyPotential Pc2 5.5 0 ≠ some (Pc2.kpPot 5.5 0) := by
  constructor
  · norm_num [Pc2]
  · have hval : legacyPotential Pc2 5.5 0 = some 0 := by
      norm_num [legacyPotential, Pc2, LegacyParams.alpha, LegacyParams.beta,
        r4max, maxZeroIndx, idxmin, listMin, diffs, gaussKs, gaussWts,
        legacySum, legacyTerms, legPotKer, floatSum, List.range_succ]
    rw [hval]
    norm_num [Pc2]

/-- C2 amended: at a scalar query the legacy strategy delegates to the
Kepler fallback when `R > 16*hr` or `R > 6` for the radial force, vertical
force, and the `R^2`- and `z^2`-derivatives, but only when `R > 6` for the
potential and the mixed `Rz`-derivative (for those two, `16*hr < R <= 6`
still runs the quadrature). -/
theorem c2_fallback_conditions (P : LegacyParams) (R z : ℝ) :
    (6 < R → legacyPotential P R z = some (P.kpPot R z)) ∧
    (16 * P.hr < R ∨ 6 < R → legacyRforce P R z = some (P.kpRforce R z)) ∧
    (16 * P.hr < R ∨ 6 < R → legacyZforce P R z = some (P.kpZforce R z)) ∧
    (16 * P.hr < R ∨ 6 < R → legacyR2deriv P R z = some (P.kpR2deriv R z)) ∧
    (16 * P.hr < R ∨ 6 < R → legacyZ2deriv P R z = some (P.kpZ2deriv R z)) ∧
    (6 < R → legacyRzderiv P R z = some (P.kpRzderiv R z)) := by
  refine ⟨?_, ?_, ?_, ?_, ?_, ?_⟩
  · intro h
    unfold legacyPotential
    rw [if_neg (not_le.mpr h)]
  · intro h
    unfold legacyRforce
    rw [if_pos h]
  · intro h
    unfold legacyZforce
    rw [if_pos h]
  · intro h
    unfold legacyR2deriv
    rw [if_pos h]
  · intro h
    unfold legacyZ2deriv
    rw [if_pos h]
  · intro h
    unfold legacyRzderiv
    rw [if_pos h]

/-- Witness for C2 at `R=7 > 6`, where all six quantities delegate. -/
theorem c2_witness :
    (6 : ℝ) < 7 ∧ (16 * Pc3.hr < (7 : ℝ) ∨ (6 : ℝ) < 7) ∧
      legacyPotential Pc3 7 0 = some (Pc3.kpPot 7 0) ∧
      legacyRforce Pc3 7 0 = some (Pc3.kpRforce 7 0) ∧
      legacyZforce Pc3 7 0 = some (Pc3.kpZforce 7 0) ∧
      legacyR2deriv Pc3 7 0 = some (Pc3.kpR2deriv 7 0) ∧
      legacyZ2deriv Pc3 7 0 = some (Pc3.kpZ2deriv 7 0) ∧
      legacyRzderiv Pc3 7 0 = some (Pc3.kpRzderiv 7 0) := by
  have h6 : (6 : ℝ) < 7 := by norm_num
  have hor : 16 * Pc3.hr < (7 : ℝ) ∨ (6 : ℝ) < 7 := Or.inr h6
  obtain ⟨h1, h2, h3, h4, h5, hrz⟩ := c2_fallback_conditions Pc3 7 0
  exact ⟨h6, hor, h1 h6, h2 hor, h3 hor, h4 hor, h5 hor, hrz h6⟩

/-! ### Claim C9 -/

/-- Counterexample to C9: switching the strategy selector does change which
input shapes are accepted — with a length-3 array `R` against a length-2 DE
node table (no numpy side has size 1 and the lengths disagree) the DE
vertical force raises a broadcast `ValueError` (`none`) while the legacy
vertical force accepts the array. -/
theorem c9_counterexample :
    zforceCall true 1 2 [1, 2] [1, 1] Pc3 (.array [1, 2, 3]) 0 = none ∧
      zforceCall false 1 2 [1, 2] [1, 1] Pc3 (.array [1, 2, 3]) 0 ≠ none := by
  constructor
  · simp [zforceCall]
  · simp [zforceCall]

/-- C9 amended: the *potential* accepts scalar and array input with the
result shape mirroring the input under both strategies, and the legacy
strategy does so for the vertical force as well; but the DE vertical force
(likewise the other DE force/derivative evaluators, which have no array
normalisation) rejects an array `R` whose length is at least 2 and differs
from the node-table length whenever the node table itself has length at
least 2 (with the default `de_n = 10000` table, every array length other
than 1 or 10000 raises), so the strategy selector does change the accepted
input shapes. -/
theorem c9_shape_contract (de : Bool) (α β : ℝ) (xs ws : List ℝ)
    (P : LegacyParams) (z r : ℝ) (rs : List ℝ) :
    (∃ v, potentialCall de α β xs ws P (.scalar r) z = some (.scalar v)) ∧
    (∃ l, potentialCall de α β xs ws P (.array rs) z = some (.array l) ∧
      l.length = rs.length) ∧
    (∃ v, zforceCall false α β xs ws P (.scalar r) z = some (.scalar v)) ∧
    (∃ l, zforceCall false α β xs ws P (.array rs) z = some (.array l) ∧
      l.length = rs.length) ∧
    (2 ≤ rs.length → 2 ≤ xs.length → rs.length ≠ xs.length →
      zforceCall true α β xs ws P (.array rs) z = none) := by
  refine ⟨?_, ?_, ?_, ?_, ?_⟩
  · cases de
    · exact ⟨_, rfl⟩
    · exact ⟨_, rfl⟩
  · cases de
    · exact ⟨_, rfl, by simp⟩
    · exact ⟨_, rfl, by simp⟩
  · exact ⟨_, rfl⟩
  · exact ⟨_, rfl, by simp⟩
  · intro h2 hxs hne
    have hlen1 : rs.length ≠ 1 := by omega
    have hxs1 : xs.length ≠ 1 := by omega
    simp [zforceCall, hlen1, hxs1, hne]

/-- Witness for C9 with `rs = [1,2,3]` against the length-2 node table
`xs = [1,2]`. -/
theorem c9_witness :
    2 ≤ ([1, 2, 3] : List ℝ).length ∧ 2 ≤ ([1, 2] : List ℝ).length ∧
      ([1, 2, 3] : List ℝ).length ≠ ([1, 2] : List ℝ).length ∧
      zforceCall true 1 2 [1, 2] [1, 1] Pc3 (.array [1, 2, 3]) 0 = none :=
  ⟨by simp, by simp, by simp,
    (c9_shape_contract true 1 2 [1, 2] [1, 1] Pc3 0 1 [1, 2, 3]).2.2.2.2
      (by simp) (by simp) (by simp)⟩

end GalpyDoubleExpDisk
